import Mathlib

/-!
Shallow embedding of jsont/basic_from_json_converters.py: the converters
ToAny, ToUnion, ToLiteral, ToNone, ToSimple, ToTuple, ToList, ToMapping,
ToTypedMapping and the helpers _first_success, _replace_ellipsis,
_fill_ellipsis, together with the recursive dispatch that ties them
together.  Python runtime facts that the code relies on are modelled
explicitly: bool is a subclass of int, str is a Sequence whose elements
are one-character strings, and == compares bool/int/float numerically.
-/

namespace JsonT

/-- The four scalar target types of JsonSimple: bool, int, float, str. -/
inductive Kind where
  | bool
  | int
  | float
  | str
deriving DecidableEq

/-- JSON values as the Python code receives them: None, bool, int, float,
str, list, dict.  Floats are modelled as rationals: every finite double is
a rational and Python compares them exactly. -/
inductive Json where
  | null
  | bool (b : Bool)
  | int (n : Int)
  | float (q : ℚ)
  | str (s : String)
  | arr (elems : List Json)
  | obj (entries : List (String × Json))

/-- Type descriptors: the target types the converters dispatch on.
ellipsis models the literal three-dot marker inside tuple type arguments;
record models a TypedDict target with its annotations, required keys and
the strict flag of ToTypedMapping. -/
inductive Desc where
  | any
  | noneType
  | simple (k : Kind)
  | literal (allowed : List Json)
  | union (alts : List Desc)
  | ellipsis
  | tuple (elems : List Desc)
  | seq (elem : Desc)
  | mapping (value : Desc)
  | record (fields : List (String × Desc)) (required : List String) (strict : Bool)

/-- Conversion results: the Python objects the converters return.  Tuples
and lists are distinct in Python, hence distinct constructors. -/
inductive Value where
  | null
  | bool (b : Bool)
  | int (n : Int)
  | float (q : ℚ)
  | str (s : String)
  | list (elems : List Value)
  | tup (elems : List Value)
  | map (entries : List (String × Value))

/-- The ValueError variants the converters raise, keeping the data each
message interpolates.  noFuel is an artifact of the fuel-indexed embedding
and corresponds to nothing in the source. -/
inductive ConvErr where
  | cannotConvert (js : Json) (d : Desc)
  | notInLiterals (js : Json) (allowed : List Json)
  | noAlternative (js : Json) (tried : List Desc) (failures : List ConvErr)
  | multipleEllipsis (js : Json) (elems : List Desc)
  | arityMismatch (js : Json) (elems : List Desc)
  | missingRequiredKeys (js : Json) (required : List String)
  | unknownKey (js : Json) (k : String)
  | unsupportedType (js : Json) (d : Desc)
  | noFuel

/-- Python isinstance against the JsonSimple member types.  bool is a
subclass of int in Python, so a bool value satisfies target type int. -/
def pyIsInstance : Json → Kind → Bool
  | .bool _, .bool => true
  | .bool _, .int => true
  | .int _, .int => true
  | .float _, .float => true
  | .str _, .str => true
  | _, _ => false

/-- The runtime scalar kind of a JSON value, when it is a scalar. -/
def kindOf : Json → Option Kind
  | .bool _ => some .bool
  | .int _ => some .int
  | .float _ => some .float
  | .str _ => some .str
  | _ => none

/-- Python isinstance(js, Sequence): str and list are Sequences; iterating
a str yields its characters as one-character strings. -/
def asPySequence : Json → Option (List Json)
  | .str s => some (s.toList.map fun c => .str (String.mk [c]))
  | .arr l => some l
  | _ => none

/-- The numeric value of a Python scalar for cross-type ==: True is 1,
False is 0, ints and floats compare by exact value. -/
def pyNum : Json → Option ℚ
  | .bool b => some (if b then 1 else 0)
  | .int n => some (n : ℚ)
  | .float q => some q
  | _ => none

mutual

/-- Python == on JSON values: None equals None, strings compare as
strings, bool/int/float compare numerically, lists elementwise, dicts by
key lookup. -/
def pyEq : Json → Json → Bool
  | .null, .null => true
  | .str s, .str t => s == t
  | .arr a, .arr b => pyEqList a b
  | .obj a, .obj b => a.length == b.length && pyEqEntries a b
  | a, b =>
    match pyNum a, pyNum b with
    | some x, some y => decide (x = y)
    | _, _ => false

/-- Elementwise Python == on lists. -/
def pyEqList : List Json → List Json → Bool
  | [], [] => true
  | a :: rest, b :: bs => pyEq a b && pyEqList rest bs
  | _, _ => false

/-- Python dict equality, first operand driving the key lookups. -/
def pyEqEntries : List (String × Json) → List (String × Json) → Bool
  | [], _ => true
  | (k, v) :: rest, b =>
    (match b.lookup k with
     | some w => pyEq v w
     | none => false) && pyEqEntries rest b

end

mutual

/-- ToAny returns the object representing JSON unchanged; this maps it
into the Value type. -/
def toValue : Json → Value
  | .null => .null
  | .bool b => .bool b
  | .int n => .int n
  | .float q => .float q
  | .str s => .str s
  | .arr l => .list (toValueList l)
  | .obj es => .map (toValueEntries es)

/-- toValue on every element of a list. -/
def toValueList : List Json → List Value
  | [] => []
  | x :: xs => toValue x :: toValueList xs

/-- toValue on every value of a list of entries. -/
def toValueEntries : List (String × Json) → List (String × Value)
  | [] => []
  | (k, v) :: rest => (k, toValue v) :: toValueEntries rest

end

/-- Recognizer for the descriptor Simple(str): the `ty is str` test of
ToUnion.convert. -/
def isStrDesc : Desc → Bool
  | .simple .str => true
  | _ => false

/-- Recognizer for the three-dot marker among tuple type arguments. -/
def isEllipsisDesc : Desc → Bool
  | .ellipsis => true
  | _ => false

/-- Recognizer for Sequence and Mapping descriptors. -/
def isSeqOrMapDesc : Desc → Bool
  | .seq _ => true
  | .mapping _ => true
  | _ => false

/-- The reordering of ToUnion.convert: a single str first when str occurs
among the alternatives, then every non-str alternative in original
order. -/
def unionTypesWithStrFirst (alts : List Desc) : List Desc :=
  (if alts.any isStrDesc then [Desc.simple .str] else [])
    ++ alts.filter (fun ty => !isStrDesc ty)

/-- The loop of _first_success with its failures accumulator: apply f to
each argument pair, return the first success, otherwise every failure in
order. -/
def firstSuccessAux {γ : Type} (f : Json → Desc → Except ConvErr γ)
    (failures : List ConvErr) : List (Json × Desc) → γ ⊕ List ConvErr
  | [] => .inr failures
  | (js, ty) :: rest =>
    match f js ty with
    | .ok v => .inl v
    | .error e => firstSuccessAux f (failures ++ [e]) rest

/-- _first_success: first successful application of f, or the full list of
failures. -/
def firstSuccess {γ : Type} (f : Json → Desc → Except ConvErr γ)
    (args : List (Json × Desc)) : γ ⊕ List ConvErr :=
  firstSuccessAux f [] args

/-- _fill_ellipsis: replace the first three-dot marker in place by
expected_len - (len(types) - 1) copies of the wildcard (object, i.e. Any);
a negative count yields no copies, exactly as Python list multiplication
does. -/
def fillEllipsis (types : List Desc) (expectedLen : Nat) : List Desc :=
  match types.findIdx? isEllipsisDesc with
  | none => types
  | some i =>
    types.take i ++ List.replicate (expectedLen + 1 - types.length) Desc.any
      ++ types.drop (i + 1)

/-- _replace_ellipsis: fill the marker only when one is present. -/
def replaceEllipsis (types : List Desc) (expectedLen : Nat) : List Desc :=
  if types.any isEllipsisDesc then fillEllipsis types expectedLen else types

/-- Convert each JSON element with f, in order, propagating the first
failure: the list comprehension of ToList.convert. -/
def convertEach (f : Json → Except ConvErr Value) : List Json → Except ConvErr (List Value)
  | [] => .ok []
  | x :: xs => do
    let v ← f x
    let vs ← convertEach f xs
    .ok (v :: vs)

/-- Convert each (element, type) pair with f, in order, propagating the
first failure: the generator of ToTuple.convert. -/
def convertPairs (f : Json → Desc → Except ConvErr Value) :
    List (Json × Desc) → Except ConvErr (List Value)
  | [] => .ok []
  | (x, ty) :: xs => do
    let v ← f x ty
    let vs ← convertPairs f xs
    .ok (v :: vs)

/-- Convert each retained entry of ToTypedMapping.convert: look up the
annotation for the key (raising the unknown-key ValueError when absent),
then convert the value. -/
def convertItems (f : Json → Desc → Except ConvErr Value)
    (fields : List (String × Desc)) (js : Json) :
    List (String × Json) → Except ConvErr (List (String × Value))
  | [] => .ok []
  | (k, v) :: rest =>
    match fields.lookup k with
    | some ty => do
      let w ← f v ty
      let ws ← convertItems f fields js rest
      .ok ((k, w) :: ws)
    | none => .error (.unknownKey js k)

/-- Convert the value of every entry of ToMapping.convert against the one
value descriptor, keys unchanged, propagating the first failure. -/
def convertItemsAll (f : Json → Desc → Except ConvErr Value) (value : Desc) :
    List (String × Json) → Except ConvErr (List (String × Value))
  | [] => .ok []
  | (k, v) :: rest => do
    let w ← f v value
    let ws ← convertItemsAll f value rest
    .ok ((k, w) :: ws)

/-- The recursive conversion.  Dispatch on the descriptor follows the
can_convert predicates of the nine converters (they are mutually exclusive
on representable descriptors; the registry module itself is outside
basic_from_json_converters.py, its driver role is described in the
documented contract of from_json).  Each branch is the body of the
corresponding convert method; fuel only bounds the recursion depth of the
embedding and every branch consumes one unit. -/
def fromJson : Nat → Json → Desc → Except ConvErr Value
  | 0, _, _ => .error .noFuel
  | fuel + 1, js, d =>
    match d with
    | .any =>
      -- ToAny.convert: return js
      .ok (toValue js)
    | .noneType =>
      -- ToNone.convert: return None when js is None, else raise
      match js with
      | .null => .ok .null
      | _ => .error (.cannotConvert js d)
    | .simple k =>
      -- ToSimple.convert: isinstance(js, target_type)
      if pyIsInstance js k then .ok (toValue js) else .error (.cannotConvert js d)
    | .literal allowed =>
      -- ToLiteral.convert: js in literals
      if allowed.any (fun l => pyEq js l) then .ok (toValue js)
      else .error (.notInLiterals js allowed)
    | .union alts =>
      -- ToUnion.convert
      let tried := unionTypesWithStrFirst alts
      match firstSuccess (fun j ty => fromJson fuel j ty) (tried.map fun ty => (js, ty)) with
      | .inl v => .ok v
      | .inr failures =>
        -- `if res_or_failures and isinstance(res_or_failures, list) and
        -- all(isinstance(e, ValueError) ...)`: a non-empty failure list
        -- raises; the empty list is falsy and is returned as the result
        if failures.isEmpty then .ok (.list []) else .error (.noAlternative js tried failures)
    | .tuple elems =>
      -- ToTuple.convert: three-dot count check comes before any look at js
      if 1 < elems.countP isEllipsisDesc then .error (.multipleEllipsis js elems)
      else
        match asPySequence js with
        | some l =>
          let filled := replaceEllipsis elems l.length
          if l.length ≠ filled.length then .error (.arityMismatch js elems)
          else (convertPairs (fun j ty => fromJson fuel j ty) (l.zip filled)).map .tup
        | none => .error (.cannotConvert js d)
    | .seq elem =>
      -- ToList.convert: isinstance(js, Sequence) admits lists and strs
      match asPySequence js with
      | some l => (convertEach (fun e => fromJson fuel e elem) l).map .list
      | none => .error (.cannotConvert js d)
    | .mapping value =>
      -- ToMapping.convert: isinstance(js, Mapping)
      match js with
      | .obj entries =>
        (convertItemsAll (fun j ty => fromJson fuel j ty) value entries).map .map
      | _ => .error (.cannotConvert js d)
    | .record fields required strict =>
      -- ToTypedMapping.convert
      match js with
      | .obj entries =>
        if required.all (fun k => entries.any (fun e => e.1 == k)) then
          let items := if strict then entries
            else entries.filter (fun e => (fields.lookup e.1).isSome)
          (convertItems (fun j ty => fromJson fuel j ty) fields js items).map .map
        else .error (.missingRequiredKeys js required)
      | _ => .error (.cannotConvert js d)
    | .ellipsis =>
      -- a bare three-dot marker matches no converter predicate
      .error (.unsupportedType js d)

/-! Helper lemmas shared by several claim theorems. -/

lemma except_bind_ok {α β : Type} (a : α) (f : α → Except ConvErr β) :
    (Except.ok a >>= f : Except ConvErr β) = f a := rfl

lemma except_bind_error {α β : Type} (e : ConvErr) (f : α → Except ConvErr β) :
    ((Except.error e : Except ConvErr α) >>= f) = Except.error e := rfl

lemma except_map_ok {α β : Type} (f : α → β) (a : α) :
    Except.map f (Except.ok a : Except ConvErr α) = .ok (f a) := rfl

lemma except_map_error {α β : Type} (f : α → β) (e : ConvErr) :
    Except.map f (Except.error e : Except ConvErr α) = .error e := rfl

lemma isStrDesc_iff (d : Desc) : isStrDesc d = true ↔ d = .simple .str := by
  cases d with
  | simple k => cases k <;> simp [isStrDesc]
  | _ => simp [isStrDesc]

lemma isEllipsisDesc_iff (d : Desc) : isEllipsisDesc d = true ↔ d = .ellipsis := by
  cases d <;> simp [isEllipsisDesc]

lemma firstSuccessAux_all_fail {γ : Type} (f : Json → Desc → Except ConvErr γ)
    (g : Json × Desc → ConvErr) :
    ∀ (args : List (Json × Desc)) (acc : List ConvErr),
      (∀ a ∈ args, f a.1 a.2 = .error (g a)) →
      firstSuccessAux f acc args = .inr (acc ++ args.map g) := by
  intro args
  induction args with
  | nil => intro acc _; simp [firstSuccessAux]
  | cons a rest ih =>
    intro acc h
    obtain ⟨js, ty⟩ := a
    have ha := h (js, ty) (by simp)
    simp only [firstSuccessAux, ha]
    rw [ih (acc ++ [g (js, ty)]) (fun b hb => h b (List.mem_cons_of_mem _ hb))]
    simp

lemma firstSuccessAux_prefix_fail_then_ok {γ : Type} (f : Json → Desc → Except ConvErr γ)
    (g : Json × Desc → ConvErr) (js : Json) (d : Desc) (v : γ)
    (hok : f js d = .ok v) :
    ∀ (pre : List (Json × Desc)) (acc : List ConvErr),
      (∀ a ∈ pre, f a.1 a.2 = .error (g a)) →
      ∀ rest : List (Json × Desc),
        firstSuccessAux f acc (pre ++ (js, d) :: rest) = .inl v := by
  intro pre
  induction pre with
  | nil =>
    intro acc _ rest
    simp [firstSuccessAux, hok]
  | cons a pre2 ih =>
    intro acc h rest
    obtain ⟨j2, d2⟩ := a
    have ha := h (j2, d2) (by simp)
    simp only [List.cons_append, firstSuccessAux, ha]
    exact ih (acc ++ [g (j2, d2)]) (fun b hb => h b (List.mem_cons_of_mem _ hb)) rest

lemma convertEach_all_ok (f : Json → Except ConvErr Value) (g : Json → Value) :
    ∀ l : List Json, (∀ e ∈ l, f e = .ok (g e)) →
      convertEach f l = .ok (l.map g) := by
  intro l
  induction l with
  | nil => intro _; simp [convertEach]
  | cons x xs ih =>
    intro h
    have hx := h x (by simp)
    simp only [convertEach, hx, ih (fun e he => h e (List.mem_cons_of_mem _ he)), List.map]
    rfl

lemma convertPairs_all_ok (f : Json → Desc → Except ConvErr Value) (g : Json × Desc → Value) :
    ∀ l : List (Json × Desc), (∀ p ∈ l, f p.1 p.2 = .ok (g p)) →
      convertPairs f l = .ok (l.map g) := by
  intro l
  induction l with
  | nil => intro _; simp [convertPairs]
  | cons x xs ih =>
    intro h
    obtain ⟨j, ty⟩ := x
    have hx := h (j, ty) (by simp)
    simp only [convertPairs, hx, ih (fun p hp => h p (List.mem_cons_of_mem _ hp)), List.map]
    rfl

lemma convertItems_all_ok (f : Json → Desc → Except ConvErr Value)
    (fields : List (String × Desc)) (js : Json) (g : String × Json → Value) :
    ∀ items : List (String × Json),
      (∀ kv ∈ items, ∃ d, fields.lookup kv.1 = some d ∧ f kv.2 d = .ok (g kv)) →
      convertItems f fields js items = .ok (items.map fun kv => (kv.1, g kv)) := by
  intro items
  induction items with
  | nil => intro _; simp [convertItems]
  | cons kv rest ih =>
    intro h
    obtain ⟨k, v⟩ := kv
    obtain ⟨d, hd, hok⟩ := h (k, v) (by simp)
    simp only [convertItems, hd, hok, ih (fun p hp => h p (List.mem_cons_of_mem _ hp)), List.map]
    rfl

/-! Claim theorems. -/

/-- C9: for every Tuple descriptor whose element list contains more than
one variadic-gap marker, conversion fails with the more-than-one-ellipsis
ValueError for every input js, array or not: the count check precedes any
inspection of js. -/
theorem tuple_multiple_gap_rejected (fuel : Nat) (js : Json) (elems : List Desc)
    (h : 1 < elems.countP isEllipsisDesc) :
    fromJson (fuel + 1) js (.tuple elems) = .error (.multipleEllipsis js elems) := by
  simp [fromJson, h]

theorem tuple_multiple_gap_rejected_witness :
    1 < List.countP isEllipsisDesc [Desc.ellipsis, Desc.ellipsis] ∧
    fromJson 1 (.int 5) (.tuple [.ellipsis, .ellipsis]) =
      .error (.multipleEllipsis (.int 5) [.ellipsis, .ellipsis]) :=
  ⟨by decide, tuple_multiple_gap_rejected 0 (.int 5) [.ellipsis, .ellipsis] (by decide)⟩

/-- C10: for a Union descriptor with no alternatives, no input makes the
rule raise: the empty list of collected failures is falsy, so the check
for the all-failed case does not fire and the empty list is returned as if
it were a successful conversion result. -/
theorem union_empty_alternatives_no_raise (fuel : Nat) (js : Json) :
    fromJson (fuel + 1) js (.union []) = .ok (.list []) := by
  simp [fromJson, unionTypesWithStrFirst, firstSuccess, firstSuccessAux]

/-- C2 counterexample: convert(True, Simple(int)) succeeds and returns
True, because Python bool is a subclass of int, although the runtime kind
of True is bool, not int; the claimed exact-kind matching with no
bool-to-int admission fails on the code. -/
theorem simple_bool_int_counterexample :
    kindOf (.bool true) = some Kind.bool ∧ Kind.int ≠ Kind.bool ∧
      fromJson 1 (.bool true) (.simple .int) = .ok (.bool true) :=
  ⟨rfl, by decide, rfl⟩

/-- C2 amended: for every scalar v of runtime kind k, convert(v, Simple(k))
succeeds returning v unchanged; convert(v, Simple(k2)) fails with the
type-mismatch ValueError for every k2 different from k, except that a bool
value also satisfies Simple(int) (bool is a subclass of int in Python) and
is returned unchanged. -/
theorem simple_kind_match_amended (fuel : Nat) (v : Json) (k : Kind)
    (hk : kindOf v = some k) :
    fromJson (fuel + 1) v (.simple k) = .ok (toValue v)
    ∧ (∀ k2 : Kind, k2 ≠ k → ¬(k2 = Kind.int ∧ k = Kind.bool) →
        fromJson (fuel + 1) v (.simple k2) = .error (.cannotConvert v (.simple k2)))
    ∧ (∀ b : Bool, fromJson (fuel + 1) (.bool b) (.simple .int) = .ok (.bool b)) := by
  refine ⟨?_, ?_, ?_⟩
  · cases v <;> simp [kindOf] at hk <;> subst hk <;>
      simp [fromJson, pyIsInstance, toValue]
  · intro k2 hne hexc
    cases v <;> simp [kindOf] at hk <;> subst hk <;> cases k2 <;>
      simp_all [fromJson, pyIsInstance]
  · intro b
    simp [fromJson, pyIsInstance, toValue]

theorem simple_kind_match_amended_witness :
    kindOf (.int 3) = some Kind.int ∧ Kind.float ≠ Kind.int ∧
      ¬(Kind.float = Kind.int ∧ Kind.int = Kind.bool) ∧
      fromJson 1 (.int 3) (.simple .int) = .ok (.int 3) ∧
      fromJson 1 (.int 3) (.simple .float) = .error (.cannotConvert (.int 3) (.simple .float)) :=
  ⟨rfl, by decide, by decide,
    (simple_kind_match_amended 0 (.int 3) .int rfl).1,
    (simple_kind_match_amended 0 (.int 3) .int rfl).2.1 .float (by decide) (by decide)⟩

/-- C7 counterexample: a Python str is itself a Sequence, so
convert("ab", Sequence(Simple(string))) succeeds with the list of the
one-character strings, contradicting the claim that every string input
fails the Sequence rule. -/
theorem seq_accepts_string_counterexample :
    fromJson 2 (.str "ab") (.seq (.simple .str)) = .ok (.list [.str "a", .str "b"]) := rfl

/-- C7 amended: the Sequence rule succeeds only when js is an array or a
string (a string being iterated as its one-character strings); every
null, bool, number, or object input fails; on an array it converts every
element in order via the recursive conversion, producing a list of the
same length, and the first failing element fails the whole conversion
with that element's failure. -/
theorem seq_array_or_string_amended (fuel : Nat) (elem : Desc) :
    (∀ js : Json, asPySequence js = none →
        fromJson (fuel + 1) js (.seq elem) = .error (.cannotConvert js (.seq elem)))
    ∧ (∀ js : Json, asPySequence js = none ↔ ((∀ s, js ≠ .str s) ∧ ∀ l, js ≠ .arr l))
    ∧ (∀ (l : List Json) (g : Json → Value),
        (∀ e ∈ l, fromJson fuel e elem = .ok (g e)) →
        fromJson (fuel + 1) (.arr l) (.seq elem) = .ok (.list (l.map g)))
    ∧ (∀ (pre : List Json) (e : Json) (post : List Json) (err : ConvErr) (g : Json → Value),
        (∀ x ∈ pre, fromJson fuel x elem = .ok (g x)) →
        fromJson fuel e elem = .error err →
        fromJson (fuel + 1) (.arr (pre ++ e :: post)) (.seq elem) = .error err) := by
  refine ⟨?_, ?_, ?_, ?_⟩
  · intro js h
    simp [fromJson, h]
  · intro js
    cases js <;> simp [asPySequence]
  · intro l g h
    simp [fromJson, asPySequence, Except.map,
      convertEach_all_ok (fun e => fromJson fuel e elem) g l h]
  · intro pre e post err g hpre herr
    simp only [fromJson, asPySequence]
    have hfail : convertEach (fun x => fromJson fuel x elem) (pre ++ e :: post) = .error err := by
      induction pre with
      | nil => simp [convertEach, herr, except_bind_error]
      | cons x xs ih =>
        have hx := hpre x (by simp)
        have ih2 := ih (fun y hy => hpre y (List.mem_cons_of_mem _ hy))
        simp [convertEach, hx, ih2, except_bind_ok, except_bind_error]
    simp [hfail, except_map_error]

theorem seq_array_or_string_amended_witness :
    fromJson 1 (.int 3) (.seq .any) = .error (.cannotConvert (.int 3) (.seq .any)) ∧
    fromJson 2 (.arr [.int 1, .int 2, .int 3]) (.seq (.simple .int)) =
      .ok (.list [.int 1, .int 2, .int 3]) ∧
    fromJson 2 (.arr [.int 1, .str "x", .int 3]) (.seq (.simple .int)) =
      .error (.cannotConvert (.str "x") (.simple .int)) :=
  ⟨(seq_array_or_string_amended 0 .any).1 (.int 3) rfl,
    (seq_array_or_string_amended 1 (.simple .int)).2.2.1
      [.int 1, .int 2, .int 3] toValue (by intro e he; fin_cases he <;> rfl),
    (seq_array_or_string_amended 1 (.simple .int)).2.2.2
      [.int 1] (.str "x") [.int 3] (.cannotConvert (.str "x") (.simple .int)) toValue
      (by intro x hx; fin_cases hx; rfl) rfl⟩

/-- C8 counterexample: convert(True, Literal({1})) succeeds returning
True, although True is not structurally equal to the allowed value 1;
Python == identifies True with 1, so membership in the allowed set is
Python equality, not structural equality. -/
theorem literal_python_equality_counterexample :
    fromJson 1 (.bool true) (.literal [.int 1]) = .ok (.bool true)
    ∧ Json.bool true ≠ Json.int 1
    ∧ fromJson 1 (.float 1) (.literal [.int 1]) = .ok (.float 1)
    ∧ Json.float 1 ≠ Json.int 1 := by
  refine ⟨rfl, ?_, rfl, ?_⟩
  · intro h
    cases h
  · intro h
    cases h

/-- C8 amended: convert(js, Literal(allowed)) succeeds returning js
unchanged iff js is Python-==-equal to one of the allowed values, and
fails with the not-in-literals ValueError otherwise; on scalars of the
same runtime kind Python equality coincides with structural equality (so
the claimed examples hold), but it additionally identifies True/False
with 1/0 and numerically equal int/float values. -/
theorem literal_equality_amended (fuel : Nat) (js : Json) (allowed : List Json) :
    (allowed.any (fun l => pyEq js l) = true →
        fromJson (fuel + 1) js (.literal allowed) = .ok (toValue js))
    ∧ (allowed.any (fun l => pyEq js l) = false →
        fromJson (fuel + 1) js (.literal allowed) = .error (.notInLiterals js allowed))
    ∧ (∀ (b : Json) (k : Kind), kindOf js = some k → kindOf b = some k →
        (pyEq js b = true ↔ js = b))
    ∧ fromJson 1 (.int 6) (.literal [.int 5, .int 6]) = .ok (.int 6)
    ∧ fromJson 1 (.int 7) (.literal [.int 5, .int 6]) =
        .error (.notInLiterals (.int 7) [.int 5, .int 6]) := by
  refine ⟨?_, ?_, ?_, rfl, rfl⟩
  · intro h
    simp [fromJson, h]
  · intro h
    simp [fromJson, h]
  · intro b k hjs hb
    cases js <;> simp [kindOf] at hjs <;> subst hjs <;>
      cases b <;> simp [kindOf] at hb <;>
      simp [pyEq, pyNum]
    · constructor
      · intro h
        cases ‹Bool› <;> cases ‹Bool› <;> simp_all
      · intro h
        simp [h]

theorem literal_equality_amended_witness :
    List.any [Json.int 5, Json.int 6] (fun l => pyEq (.int 6) l) = true ∧
    fromJson 1 (.int 6) (.literal [.int 5, .int 6]) = .ok (.int 6) :=
  ⟨by simp [pyEq, pyNum], by
    have h := (literal_equality_amended 0 (.int 6) [.int 5, .int 6]).1
    exact h (by simp [pyEq, pyNum])⟩

/-- C4: for a non-strict Record whose required keys are all present and
whose entries with declared keys each convert, conversion succeeds:
entries with undeclared keys are silently dropped and the result holds
exactly the converted retained entries, in input order; in particular the
documented example drops the key un. -/
theorem record_nonstrict_drops_unknown_keys (fuel : Nat)
    (fields : List (String × Desc)) (required : List String)
    (entries : List (String × Json)) (g : String × Json → Value)
    (hreq : required.all (fun k => entries.any (fun e => e.1 == k)) = true)
    (hconv : ∀ kv ∈ entries.filter (fun e => (fields.lookup e.1).isSome),
        ∀ d, fields.lookup kv.1 = some d → fromJson fuel kv.2 d = .ok (g kv)) :
    fromJson (fuel + 1) (.obj entries) (.record fields required false) =
      .ok (.map ((entries.filter (fun e => (fields.lookup e.1).isSome)).map
        fun kv => (kv.1, g kv)))
    ∧ fromJson 2 (.obj [("k1", .float 1), ("k2", .int 2), ("un", .str "known")])
        (.record [("k1", .simple .float), ("k2", .simple .int)] ["k1", "k2"] false) =
      .ok (.map [("k1", .float 1), ("k2", .int 2)]) := by
  refine ⟨?_, rfl⟩
  have hitems := convertItems_all_ok (fun j ty => fromJson fuel j ty) fields (.obj entries) g
      (entries.filter (fun e => (fields.lookup e.1).isSome)) ?_
  · simp [fromJson, hreq, hitems, except_map_ok]
  · intro kv hkv
    have hsome : (fields.lookup kv.1).isSome := (List.mem_filter.mp hkv).2
    obtain ⟨d, hd⟩ := Option.isSome_iff_exists.mp hsome
    exact ⟨d, hd, hconv kv hkv d hd⟩

theorem record_nonstrict_drops_unknown_keys_witness :
    fromJson 2 (.obj [("k1", .float 1), ("k2", .int 2), ("un", .str "known")])
      (.record [("k1", .simple .float), ("k2", .simple .int)] ["k1", "k2"] false) =
      .ok (.map [("k1", .float 1), ("k2", .int 2)]) :=
  (record_nonstrict_drops_unknown_keys 1
    [("k1", .simple .float), ("k2", .simple .int)] ["k1", "k2"]
    [("k1", .float 1), ("k2", .int 2), ("un", .str "known")]
    (fun kv => toValue kv.2) (by decide)
    (by intro kv hkv d hd; fin_cases hkv <;> simp_all [List.lookup] <;> subst hd <;> rfl)).2

/-- C5: for every Record and every object input lacking a required key,
conversion fails with the missing-required-keys ValueError, whose named
key set (the full required set of the descriptor) contains every missing
key; the documented example fails naming k2. -/
theorem record_missing_required_fails (fuel : Nat)
    (fields : List (String × Desc)) (required : List String) (strict : Bool)
    (entries : List (String × Json)) (k : String)
    (hk : k ∈ required) (habsent : ∀ e ∈ entries, e.1 ≠ k) :
    fromJson (fuel + 1) (.obj entries) (.record fields required strict) =
      .error (.missingRequiredKeys (.obj entries) required)
    ∧ k ∈ required
    ∧ fromJson 2 (.obj [("k1", .float 1)])
        (.record [("k1", .simple .float), ("k2", .simple .int)] ["k1", "k2"] false) =
      .error (.missingRequiredKeys (.obj [("k1", .float 1)]) ["k1", "k2"])
    ∧ "k2" ∈ ["k1", "k2"] := by
  refine ⟨?_, hk, rfl, by decide⟩
  have hpk : (entries.any (fun e => e.1 == k)) = false := by
    rw [List.any_eq_false]
    intro e he
    simpa using habsent e he
  have hall : required.all (fun kk => entries.any (fun e => e.1 == kk)) = false := by
    rw [Bool.eq_false_iff]
    intro hA
    rw [List.all_eq_true] at hA
    have hcontra := hA k hk
    rw [hpk] at hcontra
    cases hcontra
  simp [fromJson, hall]

theorem record_missing_required_fails_witness :
    fromJson 2 (.obj [("k1", .float 1)])
      (.record [("k1", .simple .float), ("k2", .simple .int)] ["k1", "k2"] false) =
      .error (.missingRequiredKeys (.obj [("k1", .float 1)]) ["k1", "k2"]) :=
  (record_missing_required_fails 1
    [("k1", .simple .float), ("k2", .simple .int)] ["k1", "k2"] false
    [("k1", .float 1)] "k2" (by decide)
    (by intro e he; fin_cases he; decide)).2.2.1

/-- C1: the Union rule reorders the alternatives so that the Simple-str
alternative is tried before every Sequence or Mapping alternative while
the non-str alternatives keep their original relative order (and, when
str occurs at most once, the reordered sequence is a permutation of the
alternatives); the documented example succeeds via Simple(string)
returning the string "ab", not the sequence of one-character strings the
Sequence alternative alone would produce. -/
theorem union_string_priority :
    (∀ (alts : List Desc) (i j : Nat)
        (hi : i < (unionTypesWithStrFirst alts).length)
        (hj : j < (unionTypesWithStrFirst alts).length),
        isStrDesc ((unionTypesWithStrFirst alts).get ⟨i, hi⟩) = true →
        isSeqOrMapDesc ((unionTypesWithStrFirst alts).get ⟨j, hj⟩) = true →
        i < j)
    ∧ (∀ alts : List Desc,
        (unionTypesWithStrFirst alts).filter (fun ty => !isStrDesc ty)
          = alts.filter (fun ty => !isStrDesc ty))
    ∧ (∀ alts : List Desc, alts.countP isStrDesc ≤ 1 →
        (unionTypesWithStrFirst alts).Perm alts)
    ∧ fromJson 3 (.str "ab") (.union [.seq (.simple .str), .simple .str]) = .ok (.str "ab")
    ∧ fromJson 3 (.str "ab") (.seq (.simple .str)) = .ok (.list [.str "a", .str "b"]) := by
  refine ⟨?_, ?_, ?_, rfl, rfl⟩
  · intro alts i j hi hj hstr hsm
    simp only [List.get_eq_getElem] at hstr hsm
    have hmemL1 : ∀ x ∈ (if alts.any isStrDesc then [Desc.simple Kind.str] else []),
        x = Desc.simple Kind.str := by
      split <;> simp
    have hmemL2 : ∀ x ∈ alts.filter (fun ty => !isStrDesc ty), isStrDesc x = false := by
      intro x hx
      simpa using (List.mem_filter.mp hx).2
    have hi2 : i < ((if alts.any isStrDesc then [Desc.simple Kind.str] else [])
        ++ alts.filter (fun ty => !isStrDesc ty)).length := hi
    have hj2 : j < ((if alts.any isStrDesc then [Desc.simple Kind.str] else [])
        ++ alts.filter (fun ty => !isStrDesc ty)).length := hj
    have hiL1 : i < (if alts.any isStrDesc then [Desc.simple Kind.str] else []).length := by
      by_contra hc
      push_neg at hc
      have hfalse : isStrDesc (((if alts.any isStrDesc then [Desc.simple Kind.str] else [])
          ++ alts.filter (fun ty => !isStrDesc ty)).get ⟨i, hi2⟩) = false := by
        simp only [List.get_eq_getElem]
        rw [List.getElem_append_right hc]
        exact hmemL2 _ (List.getElem_mem _)
      have hstr2 : isStrDesc (((if alts.any isStrDesc then [Desc.simple Kind.str] else [])
          ++ alts.filter (fun ty => !isStrDesc ty)).get ⟨i, hi2⟩) = true := hstr
      rw [hstr2] at hfalse
      cases hfalse
    have hjL1 : (if alts.any isStrDesc then [Desc.simple Kind.str] else []).length ≤ j := by
      by_contra hc
      push_neg at hc
      have hsm2 : isSeqOrMapDesc (((if alts.any isStrDesc then [Desc.simple Kind.str] else [])
          ++ alts.filter (fun ty => !isStrDesc ty)).get ⟨j, hj2⟩) = true := hsm
      simp only [List.get_eq_getElem] at hsm2
      rw [List.getElem_append_left hc] at hsm2
      have hx := hmemL1 _ (List.getElem_mem hc)
      rw [hx] at hsm2
      simp [isSeqOrMapDesc] at hsm2
    omega
  · intro alts
    rw [unionTypesWithStrFirst, List.filter_append]
    have h2 : (alts.filter (fun ty => !isStrDesc ty)).filter (fun ty => !isStrDesc ty)
        = alts.filter (fun ty => !isStrDesc ty) :=
      List.filter_eq_self.mpr (fun a ha => (List.mem_filter.mp ha).2)
    rw [h2]
    split <;> simp [isStrDesc]
  · intro alts hcount
    by_cases h : alts.any isStrDesc
    · have hpos : 0 < alts.countP isStrDesc := by
        rw [List.countP_pos_iff]
        simpa [List.any_eq_true] using h
      have hone : alts.countP isStrDesc = 1 := by omega
      have hlen : (alts.filter isStrDesc).length = 1 := by
        rw [← List.countP_eq_length_filter]; exact hone
      obtain ⟨x, hx⟩ := List.length_eq_one.mp hlen
      have hxs : x = Desc.simple .str := by
        have hmem : x ∈ alts.filter isStrDesc := by rw [hx]; simp
        exact (isStrDesc_iff x).mp (List.mem_filter.mp hmem).2
      have : unionTypesWithStrFirst alts = alts.filter isStrDesc
          ++ alts.filter (fun ty => !isStrDesc ty) := by
        rw [unionTypesWithStrFirst, if_pos h, hx, hxs]
      rw [this]
      exact List.filter_append_perm isStrDesc alts
    · have hnone : ∀ x ∈ alts, isStrDesc x = false := by
        have := List.any_eq_false.mp (Bool.eq_false_iff.mpr h)
        intro x hx
        simpa using this x hx
      have : unionTypesWithStrFirst alts = alts := by
        rw [unionTypesWithStrFirst, if_neg h]
        simp only [List.nil_append]
        exact List.filter_eq_self.mpr (fun a ha => by simp [hnone a ha])
      rw [this]

theorem union_string_priority_witness :
    isStrDesc ((unionTypesWithStrFirst [Desc.seq (.simple .str), Desc.simple .str]).get
        ⟨0, by decide⟩) = true
    ∧ isSeqOrMapDesc ((unionTypesWithStrFirst [Desc.seq (.simple .str), Desc.simple .str]).get
        ⟨1, by decide⟩) = true
    ∧ (0 : Nat) < 1
    ∧ List.countP isStrDesc [Desc.seq (.simple .str), Desc.simple .str] ≤ 1 :=
  ⟨by decide, by decide,
    union_string_priority.1 [Desc.seq (.simple .str), Desc.simple .str] 0 1
      (by decide) (by decide) (by decide) (by decide),
    by decide⟩

/-- C3: candidates are attempted in the tried order and the first
success, at any position after any run of failing candidates, is
returned at once — the candidates after it are never attempted, as the
result is the same for every tail; an all-fail run returns one failure
per candidate in order; the Union rule propagates a success directly and
wraps an all-fail run into the aggregate ValueError carrying the full
failure list; the documented example fails listing one type-mismatch
failure per alternative, and a union succeeding via a later alternative
after an earlier failure returns that success. -/
theorem union_first_success_semantics :
    (∀ (γ : Type) (f : Json → Desc → Except ConvErr γ) (pre : List (Json × Desc))
        (g : Json × Desc → ConvErr) (js : Json) (d : Desc) (rest : List (Json × Desc)) (v : γ),
        (∀ a ∈ pre, f a.1 a.2 = .error (g a)) → f js d = .ok v →
        firstSuccess f (pre ++ (js, d) :: rest) = .inl v)
    ∧ (∀ (γ : Type) (f : Json → Desc → Except ConvErr γ) (args : List (Json × Desc))
        (g : Json × Desc → ConvErr), (∀ a ∈ args, f a.1 a.2 = .error (g a)) →
        firstSuccess f args = .inr (args.map g))
    ∧ (∀ (fuel : Nat) (js : Json) (alts : List Desc) (v : Value),
        firstSuccess (fun j ty => fromJson fuel j ty)
            ((unionTypesWithStrFirst alts).map fun ty => (js, ty)) = .inl v →
        fromJson (fuel + 1) js (.union alts) = .ok v)
    ∧ (∀ (fuel : Nat) (js : Json) (alts : List Desc) (failures : List ConvErr),
        failures ≠ [] →
        firstSuccess (fun j ty => fromJson fuel j ty)
            ((unionTypesWithStrFirst alts).map fun ty => (js, ty)) = .inr failures →
        fromJson (fuel + 1) js (.union alts) =
          .error (.noAlternative js (unionTypesWithStrFirst alts) failures))
    ∧ fromJson 2 (.float (7/2)) (.union [.simple .int, .simple .str]) =
        .error (.noAlternative (.float (7/2)) [.simple .str, .simple .int]
          [.cannotConvert (.float (7/2)) (.simple .str),
           .cannotConvert (.float (7/2)) (.simple .int)])
    ∧ fromJson 2 (.float (5/2)) (.union [.simple .int, .simple .float]) =
        .ok (.float (5/2)) := by
  refine ⟨?_, ?_, ?_, ?_, rfl, rfl⟩
  · intro γ f pre g js d rest v hpre hok
    exact firstSuccessAux_prefix_fail_then_ok f g js d v hok pre [] hpre rest
  · intro γ f args g h
    have := firstSuccessAux_all_fail f g args [] h
    simpa [firstSuccess] using this
  · intro fuel js alts v h
    simp [fromJson, h]
  · intro fuel js alts failures hne h
    have hne2 : failures.isEmpty = false := by
      rw [Bool.eq_false_iff]
      intro hA
      exact hne (List.isEmpty_iff.mp hA)
    simp [fromJson, h, hne2]

theorem union_first_success_semantics_witness :
    fromJson 1 (.float (5/2)) (.simple .int) = .error (.cannotConvert (.float (5/2)) (.simple .int))
    ∧ fromJson 1 (.float (5/2)) (.simple .float) = .ok (.float (5/2))
    ∧ firstSuccess (fun j ty => fromJson 1 j ty)
        [((.float (5/2) : Json), Desc.simple .int), ((.float (5/2) : Json), .simple .float),
         ((.float (5/2) : Json), Desc.simple .str)]
        = .inl (Value.float (5/2))
    ∧ firstSuccess (fun j ty => fromJson 1 j ty)
        [((.float (7/2) : Json), Desc.simple .str), ((.float (7/2) : Json), .simple .int)]
        = .inr [.cannotConvert (.float (7/2)) (.simple .str),
                .cannotConvert (.float (7/2)) (.simple .int)]
    ∧ fromJson 2 (.float (7/2)) (.union [.simple .int, .simple .str]) =
        .error (.noAlternative (.float (7/2)) [.simple .str, .simple .int]
          [.cannotConvert (.float (7/2)) (.simple .str),
           .cannotConvert (.float (7/2)) (.simple .int)]) :=
  ⟨rfl, rfl,
    union_first_success_semantics.1 Value (fun j ty => fromJson 1 j ty)
      [((.float (5/2) : Json), Desc.simple .int)] (fun a => .cannotConvert a.1 a.2)
      (.float (5/2)) (.simple .float) [((.float (5/2) : Json), Desc.simple .str)]
      (.float (5/2)) (by intro a ha; fin_cases ha; rfl) rfl,
    union_first_success_semantics.2.1 Value (fun j ty => fromJson 1 j ty)
      [((.float (7/2) : Json), Desc.simple .str), ((.float (7/2) : Json), .simple .int)]
      (fun a => .cannotConvert a.1 a.2) (by intro a ha; fin_cases ha <;> rfl),
    union_first_success_semantics.2.2.2.1 1 (.float (7/2)) [.simple .int, .simple .str]
      [.cannotConvert (.float (7/2)) (.simple .str),
       .cannotConvert (.float (7/2)) (.simple .int)]
      (by intro h; cases h) rfl⟩

lemma countP_one_decomp {p : Desc → Bool} :
    ∀ {l : List Desc}, l.countP p = 1 →
      ∃ pre x post, l = pre ++ x :: post ∧ p x = true
        ∧ (∀ d ∈ pre, p d = false) ∧ (∀ d ∈ post, p d = false) := by
  intro l
  induction l with
  | nil => intro h; simp [List.countP_nil] at h
  | cons a rest ih =>
    intro h
    rw [List.countP_cons] at h
    by_cases hpa : p a
    · have hrest : rest.countP p = 0 := by
        rw [if_pos hpa] at h
        omega
      refine ⟨[], a, rest, by simp, hpa, by simp, ?_⟩
      intro d hd
      have := List.countP_eq_zero.mp hrest d hd
      simpa using this
    · have hrest : rest.countP p = 1 := by
        rw [if_neg hpa] at h
        omega
      obtain ⟨pre, x, post, hdec, hx, hpre, hpost⟩ := ih hrest
      refine ⟨a :: pre, x, post, by simp [hdec], hx, ?_, hpost⟩
      intro d hd
      rcases List.mem_cons.mp hd with h1 | h2
      · subst h1
        simpa using hpa
      · exact hpre d h2

lemma findIdx_ellipsis_decomp (pre post : List Desc)
    (hpre : ∀ d ∈ pre, isEllipsisDesc d = false) :
    (pre ++ Desc.ellipsis :: post).findIdx? isEllipsisDesc = some pre.length := by
  induction pre with
  | nil => simp [List.findIdx?_cons, isEllipsisDesc]
  | cons d rest ih =>
    have hd := hpre d (by simp)
    have ih2 := ih (fun x hx => hpre x (List.mem_cons_of_mem _ hx))
    simp [List.findIdx?_cons, hd, ih2]

lemma fillEllipsis_decomp (pre post : List Desc) (n : Nat)
    (hpre : ∀ d ∈ pre, isEllipsisDesc d = false) :
    fillEllipsis (pre ++ Desc.ellipsis :: post) n =
      pre ++ List.replicate (n - (pre.length + post.length)) Desc.any ++ post := by
  have hidx := findIdx_ellipsis_decomp pre post hpre
  have hc : n + 1 - (pre ++ Desc.ellipsis :: post).length = n - (pre.length + post.length) := by
    simp only [List.length_append, List.length_cons]
    omega
  have htake : (pre ++ Desc.ellipsis :: post).take pre.length = pre := List.take_left pre _
  have hdrop : (pre ++ Desc.ellipsis :: post).drop (pre.length + 1) = post := by
    rw [List.append_cons pre Desc.ellipsis post]
    exact List.drop_left' (by simp)
  rw [fillEllipsis, hidx]
  simp only [htake, hdrop, hc]

lemma replaceEllipsis_length {elems : List Desc}
    (h : elems.countP isEllipsisDesc = 1) (n : Nat) :
    (replaceEllipsis elems n).length = max n (elems.length - 1) := by
  obtain ⟨pre, x, post, hdec, hx, hpre, hpost⟩ := countP_one_decomp h
  have hxe : x = Desc.ellipsis := (isEllipsisDesc_iff x).mp hx
  subst hxe
  have hany : elems.any isEllipsisDesc = true := by
    rw [List.any_eq_true]
    exact ⟨Desc.ellipsis, by rw [hdec]; simp, by simp [isEllipsisDesc]⟩
  rw [replaceEllipsis, if_pos hany, hdec, fillEllipsis_decomp pre post n hpre]
  simp only [List.length_append, List.length_replicate, List.length_cons]
  omega

/-- C6 counterexample: with elements [Simple(int), Gap, Simple(int)] and
the two-element array [1, 2] the expansion count
len(js) - (len(elements) - 1) is zero, the gap is removed, the expanded
list has exactly len(js) descriptors and the conversion succeeds — a zero
expansion count is not a length mismatch as the claim states. -/
theorem tuple_zero_gap_counterexample :
    List.countP isEllipsisDesc [Desc.simple .int, Desc.ellipsis, Desc.simple .int] = 1
    ∧ (2 : Nat) - ((3 : Nat) - 1) = 0
    ∧ replaceEllipsis [Desc.simple .int, Desc.ellipsis, Desc.simple .int] 2 =
        [Desc.simple .int, Desc.simple .int]
    ∧ fromJson 2 (.arr [.int 1, .int 2]) (.tuple [.simple .int, .ellipsis, .simple .int]) =
        .ok (.tup [.int 1, .int 2]) :=
  ⟨by decide, rfl, rfl, rfl⟩

/-- C6 amended: a single gap is expanded in place to
len(js) - (len(elements) - 1) copies of the wildcard Any descriptor
(clamped at zero); the conversion fails with the arity ValueError exactly
when len(js) is less than len(elements) - 1 (a negative expansion count),
while a zero or positive count makes the expanded list match len(js) and
the conversion proceeds elementwise; the documented five-element example
succeeds with a 5-tuple, positions 1 through 3 converted as Any. -/
theorem tuple_gap_expansion_amended :
    (∀ (pre post : List Desc) (n : Nat), (∀ d ∈ pre, isEllipsisDesc d = false) →
        fillEllipsis (pre ++ Desc.ellipsis :: post) n =
          pre ++ List.replicate (n - (pre.length + post.length)) Desc.any ++ post)
    ∧ (∀ (fuel : Nat) (js : Json) (l : List Json) (elems : List Desc),
        elems.countP isEllipsisDesc = 1 → asPySequence js = some l →
        l.length < elems.length - 1 →
        fromJson (fuel + 1) js (.tuple elems) = .error (.arityMismatch js elems))
    ∧ (∀ (fuel : Nat) (js : Json) (l : List Json) (elems : List Desc) (g : Json × Desc → Value),
        elems.countP isEllipsisDesc = 1 → asPySequence js = some l →
        elems.length - 1 ≤ l.length →
        (∀ p ∈ l.zip (replaceEllipsis elems l.length), fromJson fuel p.1 p.2 = .ok (g p)) →
        fromJson (fuel + 1) js (.tuple elems) =
          .ok (.tup ((l.zip (replaceEllipsis elems l.length)).map g)))
    ∧ replaceEllipsis [Desc.simple .int, Desc.ellipsis, Desc.simple .int] 5 =
        [Desc.simple .int, Desc.any, Desc.any, Desc.any, Desc.simple .int]
    ∧ fromJson 2 (.arr [.int 1, .int 2, .int 3, .int 4, .int 5])
        (.tuple [.simple .int, .ellipsis, .simple .int]) =
      .ok (.tup [.int 1, .int 2, .int 3, .int 4, .int 5]) := by
  refine ⟨fillEllipsis_decomp, ?_, ?_, rfl, rfl⟩
  · intro fuel js l elems hcount hseq hlt
    have hnot : ¬(1 < elems.countP isEllipsisDesc) := by omega
    have hlen := replaceEllipsis_length hcount l.length
    have hne : l.length ≠ (replaceEllipsis elems l.length).length := by
      rw [hlen]
      omega
    simp only [fromJson]
    rw [if_neg hnot, hseq]
    simp only []
    rw [if_pos hne]
  · intro fuel js l elems g hcount hseq hge hconv
    have hnot : ¬(1 < elems.countP isEllipsisDesc) := by omega
    have hlen := replaceEllipsis_length hcount l.length
    have heq : l.length = (replaceEllipsis elems l.length).length := by
      rw [hlen]
      omega
    have hpairs := convertPairs_all_ok (fun j ty => fromJson fuel j ty) g
      (l.zip (replaceEllipsis elems l.length)) hconv
    simp only [fromJson]
    rw [if_neg hnot, hseq]
    simp only []
    rw [if_neg (fun h => h heq), hpairs]
    rfl

theorem tuple_gap_expansion_amended_witness :
    fromJson 1 (.arr [.int 1]) (.tuple [.simple .int, .ellipsis, .simple .int]) =
      .error (.arityMismatch (.arr [.int 1]) [.simple .int, .ellipsis, .simple .int])
    ∧ fromJson 2 (.arr [.int 1, .int 2, .int 3, .int 4, .int 5])
        (.tuple [.simple .int, .ellipsis, .simple .int]) =
      .ok (.tup [.int 1, .int 2, .int 3, .int 4, .int 5]) :=
  ⟨tuple_gap_expansion_amended.2.1 0 (.arr [.int 1]) [.int 1]
      [.simple .int, .ellipsis, .simple .int] (by decide) rfl (by decide),
    by
      have h := tuple_gap_expansion_amended.2.2.1 1
        (.arr [.int 1, .int 2, .int 3, .int 4, .int 5])
        [.int 1, .int 2, .int 3, .int 4, .int 5]
        [.simple .int, .ellipsis, .simple .int]
        (fun p => toValue p.1) (by decide) rfl (by decide)
        (by intro p hp; fin_cases hp <;> rfl)
      simpa using h⟩

end JsonT
